import Mathlib

/-!
Verification development for the JSONL translation pipeline
(`translate_mesh_deep.py`): the translation cache, the retrying
translation client `translate_text`, the atomic cache persister
`save_cache`, the resume tracker, the main record loop of `process`,
and the brace-counting streaming reader of the top-level JSON array.

External effects are made explicit: the translation provider is an
oracle giving the outcome of each attempt, exceptions are `Except`
values, sleeps are accumulated in a list, and the filesystem touched by
`save_cache` is a small record of the two involved paths.
-/

/-- The in-memory translation cache: the Python `dict` mapping source
text to its translation, represented as an association list in which the
most recent binding stands first. -/
abbrev Cache := List (String × String)

/-- Python `text in cache` / `cache[text]`: the most recent binding for
the key, if any. -/
def Cache.find : Cache → String → Option String
  | [], _ => none
  | (k, v) :: c, t => if k = t then some v else Cache.find c t

/-- Python `cache[text] = translated`: the new binding shadows any older
binding of the same key. -/
def Cache.insert (c : Cache) (k v : String) : Cache := (k, v) :: c

/-- Python `str.strip()` on the character list of a string: whitespace
dropped from both ends. -/
def pyStrip (cs : List Char) : List Char :=
  ((cs.dropWhile Char.isWhitespace).reverse.dropWhile Char.isWhitespace).reverse

/-- The guard `not text or not text.strip()` opening `translate_text`
(line 46 of the source). -/
def pyBlank (s : String) : Bool := s.data.isEmpty || (pyStrip s.data).isEmpty

/-- Python truthiness of an optional string field (`if term_en:`,
`if translated:`, `if mesh_id ...`): present and non-empty. -/
def truthy : Option String → Bool
  | none => false
  | some s => !s.data.isEmpty

/-- Outcome of one call of `translator.translate(text)`: either an
exception, or a returned value (`none` models a `None` response). -/
inductive Attempt where
  | exn : Attempt
  | val : Option String → Attempt
deriving DecidableEq

/-- What one call of `translate_text` produced: its return value, the
cache as it stands afterwards, the backoff sleeps performed (in order),
and how many times the provider was invoked. -/
structure TransResult where
  result : Option String
  cache : Cache
  sleeps : List ℚ
  attempts : Nat
deriving DecidableEq

/-- The retry loop `for attempt in range(retries)` of `translate_text`
(lines 54-69).  `remaining` counts the iterations left (`retries` at
entry), `attempt` the current index; `sleeps` and `calls` accumulate the
backoff sleeps and provider invocations so far.  On a truthy translation
the text is cached and returned; on an exception before the last attempt
the loop sleeps `base * 2 ^ attempt` and retries; on the last attempt it
gives up with `none`; falling out of the loop also returns `none`. -/
def ttLoop (p : Nat → Attempt) (retries : Nat) (base : ℚ) (t : String)
    (cache : Cache) : Nat → Nat → List ℚ → Nat → TransResult
  | 0, _, sleeps, calls => ⟨none, cache, sleeps, calls⟩
  | remaining + 1, attempt, sleeps, calls =>
    match p attempt with
    | .val (some s) =>
      if s.data.isEmpty then
        ttLoop p retries base t cache remaining (attempt + 1) sleeps (calls + 1)
      else
        ⟨some s, Cache.insert cache t s, sleeps, calls + 1⟩
    | .val none =>
      ttLoop p retries base t cache remaining (attempt + 1) sleeps (calls + 1)
    | .exn =>
      if attempt < retries - 1 then
        ttLoop p retries base t cache remaining (attempt + 1)
          (sleeps ++ [base * 2 ^ attempt]) (calls + 1)
      else
        ⟨none, cache, sleeps, calls + 1⟩

/-- `translate_text(text, cache, retries, base_delay)` (lines 44-69).
Blank text short-circuits to `None`; a cached text is returned at once;
otherwise the `GoogleTranslator` client is constructed — an exception
there (oracle `ctorFails`) is NOT caught and propagates as `.error` —
and the retry loop runs.  `p` gives the outcome of each provider
attempt. -/
def translate_text (ctorFails : Bool) (p : Nat → Attempt) (text : String)
    (cache : Cache) (retries : Nat) (base_delay : ℚ) :
    Except Unit TransResult :=
  if pyBlank text then .ok ⟨none, cache, [], 0⟩
  else
    match Cache.find cache text with
    | some v => .ok ⟨some v, cache, [], 0⟩
    | none =>
      if ctorFails then .error ()
      else .ok (ttLoop p retries base_delay text cache retries 0 [] 0)

/-! ### The filesystem model for `save_cache` -/

/-- The two paths `save_cache` touches: the temporary file
`path + ".tmp"` and the cache file `path` (`none` = file absent). -/
structure FS where
  tmpFile : Option String
  cacheFile : Option String
deriving DecidableEq

/-- One character of JSON string escaping, as `json.dump` performs it
for the characters that occur in practice. -/
def escChar (c : Char) : List Char :=
  if c = '"' then ['\\', '"']
  else if c = '\\' then ['\\', '\\']
  else if c = '\n' then ['\\', 'n']
  else if c = '\t' then ['\\', 't']
  else if c = '\r' then ['\\', 'r']
  else [c]

/-- One `"key": "value"` line of the dumped cache, at indent 2. -/
def renderEntry (kv : String × String) : List Char :=
  [' ', ' ', '"'] ++ (kv.1.data.map escChar).flatten ++ ['"', ':', ' ', '"']
    ++ (kv.2.data.map escChar).flatten ++ ['"']

/-- Comma-and-newline separated entry lines. -/
def joinEntries : List (List Char) → List Char
  | [] => []
  | [x] => x
  | x :: xs => x ++ [',', '\n'] ++ joinEntries xs

/-- `json.dump(cache, f, ensure_ascii=False, indent=2)` (line 38): the
complete serialized content of the cache. -/
def dumpCache (c : Cache) : String :=
  match c with
  | [] => ⟨['{', '}']⟩
  | _ => ⟨['{', '\n'] ++ joinEntries (c.map renderEntry) ++ ['\n', '}']⟩

/-- Writing `content` to the temporary file (lines 37-38).  `wfail =
none` means the write completes; `wfail = some k` means an exception is
raised after `k` characters reached the file, so the temporary file is
left half-written — but only the temporary file. -/
def writeTmp (content : String) (wfail : Option Nat) (fs : FS) :
    Except FS FS :=
  match wfail with
  | none => .ok { fs with tmpFile := some content }
  | some k => .error { fs with tmpFile := some ⟨content.data.take k⟩ }

/-- `os.replace(tmp, path)` (line 39): atomic — it either renames the
complete temporary file over the cache file or raises leaving both
untouched. -/
def osReplace (rfail : Bool) (fs : FS) : Except FS FS :=
  if rfail then .error fs
  else
    match fs.tmpFile with
    | some content => .ok ⟨none, some content⟩
    | none => .error fs

/-- `save_cache(cache, path)` (lines 34-41): the `try` block writes the
dump to the temporary file and atomically replaces the cache file; any
exception is caught and only a warning is printed (the returned `Bool`
records whether the warning was printed). -/
def save_cache (c : Cache) (wfail : Option Nat) (rfail : Bool) (fs : FS) :
    FS × Bool :=
  match writeTmp (dumpCache c) wfail fs with
  | .error fs' => (fs', true)
  | .ok fs' =>
    match osReplace rfail fs' with
    | .error fs'' => (fs'', true)
    | .ok fs'' => (fs'', false)

/-! ### Records and the main loop of `process` -/

/-- An input record as the pipeline reads it: the fields `process`
consults.  `none` models a missing (or JSON-`null`) field.  Keys the
loop never reads are carried through unchanged and are not modelled;
input objects of this pipeline do not already carry `*_vi` keys. -/
structure Rec where
  mesh_id : Option String
  term_en : Option String
  definition : Option String
  term_vi : Option String
  definition_vi : Option String
deriving DecidableEq

/-- The resume scan (lines 85-97): each decodable line (`some r`) that
has a `mesh_id` key contributes its value to `existing_ids`;
undecodable lines (`none`) are skipped.  (A Python line with a `null`
`mesh_id` would add `None` to the set; such an entry can never equal
the truthy string id later tested for membership, so it is dropped
here.) -/
def collectIds : List (Option Rec) → List String
  | [] => []
  | some r :: rest =>
    (match r.mesh_id with
     | some s => [s]
     | none => []) ++ collectIds rest
  | none :: rest => collectIds rest

/-- The skip test `if resume and mesh_id and mesh_id in existing_ids`
(line 137). -/
def skipRec (resume : Bool) (existing : List String) (r : Rec) : Bool :=
  resume && truthy r.mesh_id &&
    (match r.mesh_id with
     | some s => existing.contains s
     | none => false)

/-- Translating one field (lines 142-147 / 152-156): a truthy field is
passed to `translate_text` with `retries = 5` and the default base
delay; the translated value is kept only when truthy (the `if term_vi:`
guard). -/
def applyField (cf : Bool) (p : String → Nat → Attempt) (cache : Cache) :
    Option String → Except Unit (Option String × Cache)
  | none => .ok (none, cache)
  | some t =>
    if t.data.isEmpty then .ok (none, cache)
    else
      match translate_text cf (p t) t cache 5 1 with
      | .error e => .error e
      | .ok tr =>
        .ok (if truthy tr.result then tr.result else none, tr.cache)

/-- The per-record translation step (lines 141-159): `term_en` then
`definition`, each `*_vi` key set only when its translation came back
truthy. -/
def translateRec (cf : Bool) (p : String → Nat → Attempt) (cache : Cache)
    (r : Rec) : Except Unit (Rec × Cache) :=
  match applyField cf p cache r.term_en with
  | .error e => .error e
  | .ok (tv, c₁) =>
    let r₁ := match tv with
      | some s => { r with term_vi := some s }
      | none => r
    match applyField cf p c₁ r.definition with
    | .error e => .error e
    | .ok (dv, c₂) =>
      let r₂ := match dv with
        | some s => { r₁ with definition_vi := some s }
        | none => r₁
      .ok (r₂, c₂)

/-- Running state of the main loop: the cache, the records appended to
the output so far (in order), and the `written` counter. -/
structure PState where
  cache : Cache
  written : List Rec
  writtenCount : Nat
deriving DecidableEq

/-- One iteration of the main loop for one decoded object
(lines 136-163): skip when the resume check fires, otherwise translate
both fields and append the record to the output. -/
def processOne (cf : Bool) (p : String → Nat → Attempt) (resume : Bool)
    (existing : List String) (st : PState) (r : Rec) : Except Unit PState :=
  if skipRec resume existing r then .ok st
  else
    match translateRec cf p st.cache r with
    | .error e => .error e
    | .ok (r', c') => .ok ⟨c', st.written ++ [r'], st.writtenCount + 1⟩

/-- The main loop of `process` over the stream of decoded records.  An
`.error` is an exception escaping the loop and terminating the batch. -/
def processRecords (cf : Bool) (p : String → Nat → Attempt) (resume : Bool)
    (existing : List String) : List Rec → PState → Except Unit PState
  | [], st => .ok st
  | r :: rs, st =>
    match processOne cf p resume existing st r with
    | .error e => .error e
    | .ok st' => processRecords cf p resume existing rs st'

/-! ### The streaming reader -/

/-- Scanner state of the streaming reader (lines 101-105). -/
structure ScanState where
  in_array : Bool
  brace : Int
  current : List Char
  objs : List (List Char)
deriving DecidableEq

/-- The reader's initial state. -/
def initScan : ScanState := ⟨false, 0, [], []⟩

/-- One character of the scan loop (lines 112-133).  Before the opening
bracket everything is skipped; inside the array an opening brace raises
the depth, characters at positive depth accumulate, and a closing brace
that returns the depth to zero completes an object text, collected in
`objs` (the source then decodes it with `json.loads`, skipping it on
failure). -/
def scanStep (st : ScanState) (ch : Char) : ScanState :=
  if !st.in_array then
    if ch = '[' then { st with in_array := true } else st
  else
    let st₁ := if ch = '{' then { st with brace := st.brace + 1 } else st
    let st₂ :=
      if st₁.brace > 0 then { st₁ with current := st₁.current ++ [ch] } else st₁
    if ch = '}' then
      if st₂.brace - 1 = 0 then
        { st₂ with brace := 0, current := [], objs := st₂.objs ++ [st₂.current] }
      else { st₂ with brace := st₂.brace - 1 }
    else st₂

/-- The whole scan: the object texts the reader yields, in order.  (The
64 KiB chunked reads of the source feed exactly this character
sequence.) -/
def scanChars (cs : List Char) : List (List Char) :=
  (cs.foldl scanStep initScan).objs

/-- Brace-depth delta of a character sequence. -/
def delta : List Char → Int
  | [] => 0
  | c :: cs => (if c = '{' then 1 else if c = '}' then -1 else 0) + delta cs

/-- An object text the brace scanner can delimit: it opens with a brace,
its braces balance, and every proper non-empty prefix sits at positive
depth.  The serialization of a JSON object none of whose string
literals contains a brace character has this shape. -/
def wellNested (t : List Char) : Prop :=
  t.head? = some '{' ∧ delta t = 0 ∧
    ∀ n, n < t.length → 0 < n → 0 < delta (t.take n)

/-- Characters allowed between object texts: no braces. -/
def sepOk (s : List Char) : Prop := ∀ c ∈ s, c ≠ '{' ∧ c ≠ '}'

instance (t : List Char) : Decidable (wellNested t) := by
  unfold wellNested; infer_instance

instance (s : List Char) : Decidable (sepOk s) := by
  unfold sepOk; infer_instance

/-! ### Theorems: the cache persister and the blank-text short-circuit -/

/-- C7: `save_cache` writes the complete serialized cache to a temporary
file and atomically replaces the cache file, so the cache file is never
observed half-written — after any run it holds either its previous
content or the complete dump; and when persisting fails at either step,
`save_cache` does not raise: it returns normally having printed a
warning (and it prints one only on failure). -/
theorem save_cache_atomic_and_total (c : Cache) (wfail : Option Nat)
    (rfail : Bool) (fs : FS) :
    ((save_cache c wfail rfail fs).1.cacheFile = fs.cacheFile ∨
      (save_cache c wfail rfail fs).1.cacheFile = some (dumpCache c)) ∧
    ((save_cache c wfail rfail fs).2 = true ↔ wfail ≠ none ∨ rfail = true) := by
  cases wfail <;> cases rfail <;>
    simp [save_cache, writeTmp, osReplace]

/-- C8: blank (empty or whitespace-only) text makes `translate_text`
return `None` at once: no provider invocation, no sleep, the cache
untouched — and no exception either, even if constructing the client
would fail, since the short-circuit runs first. -/
theorem translate_text_blank (cf : Bool) (p : Nat → Attempt) (t : String)
    (cache : Cache) (r : Nat) (b : ℚ) (h : pyBlank t = true) :
    translate_text cf p t cache r b = .ok ⟨none, cache, [], 0⟩ := by
  simp [translate_text, h]

/-- Witness for C8 at the concrete whitespace text `"  "`. -/
theorem translate_text_blank_witness :
    translate_text true (fun _ => .exn) "  " [] 5 1 = .ok ⟨none, [], [], 0⟩ :=
  translate_text_blank true (fun _ => .exn) "  " [] 5 1 (by decide)

/-! ### Helper lemmas about strings and the retry loop -/

theorem string_ne_empty_iff (s : String) : s ≠ "" ↔ s.data.isEmpty = false := by
  constructor
  · intro h
    cases s with
    | mk l =>
      cases l with
      | nil => exact absurd rfl h
      | cons c cs => rfl
  · intro h hs
    subst hs
    exact absurd h (by decide)

theorem ttLoop_step_exn_sleep (p : Nat → Attempt) (retries : Nat) (b : ℚ)
    (t : String) (cache : Cache) (remaining attempt : Nat) (sleeps : List ℚ)
    (calls : Nat) (hp : p attempt = .exn) (hlt : attempt < retries - 1) :
    ttLoop p retries b t cache (remaining + 1) attempt sleeps calls =
      ttLoop p retries b t cache remaining (attempt + 1)
        (sleeps ++ [b * 2 ^ attempt]) (calls + 1) := by
  rw [ttLoop, hp]
  simp [hlt]

theorem ttLoop_step_exn_last (p : Nat → Attempt) (retries : Nat) (b : ℚ)
    (t : String) (cache : Cache) (remaining attempt : Nat) (sleeps : List ℚ)
    (calls : Nat) (hp : p attempt = .exn) (hlt : ¬ attempt < retries - 1) :
    ttLoop p retries b t cache (remaining + 1) attempt sleeps calls =
      ⟨none, cache, sleeps, calls + 1⟩ := by
  rw [ttLoop, hp]
  simp [hlt]

theorem ttLoop_step_val_some (p : Nat → Attempt) (retries : Nat) (b : ℚ)
    (t : String) (cache : Cache) (remaining attempt : Nat) (sleeps : List ℚ)
    (calls : Nat) (s : String) (hp : p attempt = .val (some s))
    (hs : s.data.isEmpty = false) :
    ttLoop p retries b t cache (remaining + 1) attempt sleeps calls =
      ⟨some s, Cache.insert cache t s, sleeps, calls + 1⟩ := by
  rw [ttLoop, hp]
  simp [hs]

theorem ttLoop_allFail (retries : Nat) (b : ℚ) (t : String) (cache : Cache) :
    ∀ (remaining attempt : Nat) (sleeps : List ℚ) (calls : Nat),
      attempt + remaining = retries →
      ttLoop (fun _ => .exn) retries b t cache remaining attempt sleeps calls =
        ⟨none, cache,
          sleeps ++ (List.range' attempt (remaining - 1)).map (fun i => b * 2 ^ i),
          calls + remaining⟩
  | 0, attempt, sleeps, calls, _ => by simp [ttLoop]
  | 1, attempt, sleeps, calls, h => by
    have hlt : ¬ attempt < retries - 1 := by omega
    rw [ttLoop_step_exn_last _ _ _ _ _ _ _ _ _ rfl hlt]
    simp
  | (m + 2), attempt, sleeps, calls, h => by
    have hlt : attempt < retries - 1 := by omega
    have ih := ttLoop_allFail retries b t cache (m + 1) (attempt + 1)
      (sleeps ++ [b * 2 ^ attempt]) (calls + 1) (by omega)
    rw [ttLoop_step_exn_sleep _ _ _ _ _ _ _ _ _ rfl hlt, ih]
    congr 1
    · simp [List.range'_succ]
    · omega

theorem ttLoop_find (p : Nat → Attempt) (retries : Nat) (b : ℚ) (t : String) :
    ∀ (remaining : Nat) (cache : Cache) (attempt : Nat) (sleeps : List ℚ)
      (calls : Nat) (v : String),
      (ttLoop p retries b t cache remaining attempt sleeps calls).result = some v →
      Cache.find (ttLoop p retries b t cache remaining attempt sleeps calls).cache t
        = some v
  | 0, cache, attempt, sleeps, calls, v => by
    intro h
    simp [ttLoop] at h
  | (remaining + 1), cache, attempt, sleeps, calls, v => by
    intro h
    cases hp : p attempt with
    | exn =>
      simp only [ttLoop, hp] at h ⊢
      by_cases hlt : attempt < retries - 1
      · simp only [hlt, if_true] at h ⊢
        exact ttLoop_find p retries b t remaining cache (attempt + 1) _ _ v h
      · simp [hlt] at h
    | val o =>
      cases o with
      | none =>
        simp only [ttLoop, hp] at h ⊢
        exact ttLoop_find p retries b t remaining cache (attempt + 1) _ _ v h
      | some s =>
        by_cases hse : s.data.isEmpty = true
        · simp only [ttLoop, hp, hse, if_true] at h ⊢
          exact ttLoop_find p retries b t remaining cache (attempt + 1) _ _ v h
        · have hse' : s.data.isEmpty = false := by simpa using hse
          simp only [ttLoop, hp, hse', Bool.false_eq_true, if_false] at h ⊢
          simp [Cache.insert, Cache.find] at h ⊢
          exact h

theorem ttLoop_nonempty (p : Nat → Attempt) (retries : Nat) (b : ℚ) (t : String) :
    ∀ (remaining : Nat) (cache : Cache) (attempt : Nat) (sleeps : List ℚ)
      (calls : Nat),
      (ttLoop p retries b t cache remaining attempt sleeps calls).result = none ∨
      ∃ s, (ttLoop p retries b t cache remaining attempt sleeps calls).result = some s
        ∧ s ≠ ""
  | 0, cache, attempt, sleeps, calls => by simp [ttLoop]
  | (remaining + 1), cache, attempt, sleeps, calls => by
    cases hp : p attempt with
    | exn =>
      simp only [ttLoop, hp]
      by_cases hlt : attempt < retries - 1
      · simp only [hlt, if_true]
        exact ttLoop_nonempty p retries b t remaining cache (attempt + 1) _ _
      · simp [hlt]
    | val o =>
      cases o with
      | none =>
        simp only [ttLoop, hp]
        exact ttLoop_nonempty p retries b t remaining cache (attempt + 1) _ _
      | some s =>
        by_cases hse : s.data.isEmpty = true
        · simp only [ttLoop, hp, hse, if_true]
          exact ttLoop_nonempty p retries b t remaining cache (attempt + 1) _ _
        · have hse' : s.data.isEmpty = false := by simpa using hse
          simp only [ttLoop, hp, hse', Bool.false_eq_true, if_false]
          exact Or.inr ⟨s, rfl, (string_ne_empty_iff s).mpr hse'⟩

/-- Cache hit: a non-blank text already in the cache is answered from it,
with no provider construction, no attempt and no sleep. -/
theorem tt_hit (cf : Bool) (p : Nat → Attempt) (t : String) (c : Cache)
    (v : String) (r : Nat) (b : ℚ) (hblank : pyBlank t = false)
    (hfind : Cache.find c t = some v) :
    translate_text cf p t c r b = .ok ⟨some v, c, [], 0⟩ := by
  simp [translate_text, hblank, hfind]

/-! ### Helper lemmas about the main loop -/

theorem translate_text_no_error (p : Nat → Attempt) (t : String) (c : Cache)
    (r : Nat) (b : ℚ) :
    ∃ res, translate_text false p t c r b = .ok res := by
  unfold translate_text
  by_cases hb : pyBlank t = true
  · simp [hb]
  · simp only [Bool.not_eq_true] at hb
    simp only [hb, Bool.false_eq_true, if_false]
    cases hf : Cache.find c t <;> simp

theorem applyField_ok (p : String → Nat → Attempt) (c : Cache)
    (f : Option String) :
    ∃ x, applyField false p c f = .ok x := by
  cases f with
  | none => exact ⟨_, rfl⟩
  | some t =>
    unfold applyField
    by_cases he : t.data.isEmpty = true
    · simp [he]
    · have he' : t.data.isEmpty = false := by simpa using he
      obtain ⟨res, hres⟩ := translate_text_no_error (p t) t c 5 1
      simp [he', hres]

theorem translateRec_ok (p : String → Nat → Attempt) (c : Cache) (r : Rec) :
    ∃ x, translateRec false p c r = .ok x := by
  unfold translateRec
  obtain ⟨⟨tv, c₁⟩, h₁⟩ := applyField_ok p c r.term_en
  obtain ⟨⟨dv, c₂⟩, h₂⟩ := applyField_ok p c₁ r.definition
  simp only [h₁]
  simp only [h₂]
  exact ⟨_, rfl⟩

theorem applyField_nonempty (cf : Bool) (p : String → Nat → Attempt) (c : Cache)
    (f : Option String) (tv : Option String) (c' : Cache)
    (h : applyField cf p c f = .ok (tv, c')) :
    tv = none ∨ ∃ s, tv = some s ∧ s ≠ "" := by
  cases f with
  | none =>
    simp [applyField] at h
    exact Or.inl h.1.symm
  | some t =>
    unfold applyField at h
    by_cases he : t.data.isEmpty = true
    · simp [he] at h
      exact Or.inl h.1.symm
    · have he' : t.data.isEmpty = false := by simpa using he
      simp only [he', Bool.false_eq_true, if_false] at h
      cases htr : translate_text cf (p t) t c 5 1 with
      | error e => rw [htr] at h; cases h
      | ok tr =>
        rw [htr] at h
        simp only [Except.ok.injEq, Prod.mk.injEq] at h
        by_cases hres : truthy tr.result = true
        · cases hx : tr.result with
          | none => rw [hx] at hres; cases hres
          | some s =>
            rw [hx] at hres
            have hs : s.data.isEmpty = false := by
              simpa [truthy] using hres
            refine Or.inr ⟨s, ?_, (string_ne_empty_iff s).mpr hs⟩
            rw [← h.1, if_pos (by rw [hx]; exact hres), hx]
        · rw [if_neg hres] at h
          exact Or.inl h.1.symm

theorem skipRec_falsy (resume : Bool) (existing : List String) (r : Rec)
    (h : r.mesh_id = none ∨ r.mesh_id = some "") :
    skipRec resume existing r = false := by
  cases h with
  | inl h => simp [skipRec, h, truthy]
  | inr h => simp [skipRec, h, truthy]

theorem skipRec_hit (existing : List String) (r : Rec) (s : String)
    (hid : r.mesh_id = some s) (hne : s ≠ "") (hmem : s ∈ existing) :
    skipRec true existing r = true := by
  simp only [skipRec, hid, truthy, Bool.true_and]
  rw [(string_ne_empty_iff s).mp hne]
  simpa [List.contains] using List.elem_eq_true_of_mem hmem

theorem skipRec_miss (resume : Bool) (existing : List String) (r : Rec)
    (s : String) (hid : r.mesh_id = some s) (hmem : s ∉ existing) :
    skipRec resume existing r = false := by
  simp only [skipRec, hid]
  have hc : existing.contains s = false := by
    by_contra hc
    simp only [Bool.not_eq_false] at hc
    exact hmem (List.mem_of_elem_eq_true hc)
  rw [hc]
  simp

theorem processOne_skip (cf : Bool) (p : String → Nat → Attempt) (resume : Bool)
    (existing : List String) (st : PState) (r : Rec)
    (h : skipRec resume existing r = true) :
    processOne cf p resume existing st r = .ok st := by
  simp [processOne, h]

theorem processOne_write (cf : Bool) (p : String → Nat → Attempt) (resume : Bool)
    (existing : List String) (st : PState) (r r' : Rec) (c' : Cache)
    (hskip : skipRec resume existing r = false)
    (htr : translateRec cf p st.cache r = .ok (r', c')) :
    processOne cf p resume existing st r =
      .ok ⟨c', st.written ++ [r'], st.writtenCount + 1⟩ := by
  simp [processOne, hskip, htr]

theorem processRecords_no_error (p : String → Nat → Attempt) (resume : Bool)
    (existing : List String) :
    ∀ (rs : List Rec) (st : PState),
      ∃ st', processRecords false p resume existing rs st = .ok st'
  | [], st => ⟨st, rfl⟩
  | r :: rs, st => by
    unfold processRecords
    by_cases hskip : skipRec resume existing r = true
    · rw [processOne_skip false p resume existing st r hskip]
      exact processRecords_no_error p resume existing rs st
    · have hskip' : skipRec resume existing r = false := by simpa using hskip
      obtain ⟨⟨r', c'⟩, htr⟩ := translateRec_ok p st.cache r
      rw [processOne_write false p resume existing st r r' c' hskip' htr]
      exact processRecords_no_error p resume existing rs _

/-! ### Helper lemmas about the streaming reader -/

theorem delta_append (xs ys : List Char) :
    delta (xs ++ ys) = delta xs + delta ys := by
  induction xs with
  | nil => simp [delta]
  | cons c cs ih =>
    simp only [List.cons_append]
    show (if c = '{' then (1 : Int) else if c = '}' then -1 else 0)
        + delta (cs ++ ys)
      = (if c = '{' then (1 : Int) else if c = '}' then -1 else 0)
        + delta cs + delta ys
    rw [ih]
    ring

theorem scanStep_not_in (st : ScanState) (c : Char) (h : st.in_array = false)
    (hc : c ≠ '[') : scanStep st c = st := by
  simp [scanStep, h, hc]

theorem scanStep_open (st : ScanState) (h : st.in_array = false) :
    scanStep st '[' = { st with in_array := true } := by
  simp [scanStep, h]

theorem scanStep_sep (st : ScanState) (c : Char) (hin : st.in_array = true)
    (hb : st.brace = 0) (h1 : c ≠ '{') (h2 : c ≠ '}') : scanStep st c = st := by
  simp [scanStep, hin, hb, h1, h2]

theorem foldl_sep (st : ScanState) (hin : st.in_array = true)
    (hb : st.brace = 0) :
    ∀ cs : List Char, (∀ c ∈ cs, c ≠ '{' ∧ c ≠ '}') → cs.foldl scanStep st = st
  | [], _ => rfl
  | c :: cs, h => by
    rw [List.foldl_cons,
      scanStep_sep st c hin hb (h c (List.mem_cons_self c cs)).1
        (h c (List.mem_cons_self c cs)).2]
    exact foldl_sep st hin hb cs (fun d hd => h d (List.mem_cons_of_mem c hd))

theorem foldl_pre (st : ScanState) (hin : st.in_array = false) :
    ∀ cs : List Char, (∀ c ∈ cs, c ≠ '[') → cs.foldl scanStep st = st
  | [], _ => rfl
  | c :: cs, h => by
    rw [List.foldl_cons, scanStep_not_in st c hin (h c (List.mem_cons_self c cs))]
    exact foldl_pre st hin cs (fun d hd => h d (List.mem_cons_of_mem c hd))

theorem scan_balanced_aux :
    ∀ (r p : List Char) (st : ScanState),
      st.in_array = true → st.brace = delta p → st.current = p →
      p ≠ [] → r ≠ [] →
      delta (p ++ r) = 0 →
      (∀ n, n < (p ++ r).length → 0 < n → 0 < delta ((p ++ r).take n)) →
      r.foldl scanStep st = ⟨true, 0, [], st.objs ++ [p ++ r]⟩
  | [], _, _, _, _, _, _, hr, _, _ => absurd rfl hr
  | [c], p, st, hin, hb, hcur, hp, _, hdelta, hpref => by
    have hdp : 0 < delta p := by
      have h0 := hpref p.length (by simp [List.length_append]) (by
        cases p with
        | nil => exact absurd rfl hp
        | cons x xs => simp)
      rwa [List.take_left] at h0
    have hda : delta p + delta [c] = 0 := by
      rw [← delta_append]; exact hdelta
    have hc : c = '}' ∧ delta p = 1 := by
      by_cases h1 : c = '{'
      · simp [delta, h1] at hda; omega
      · by_cases h2 : c = '}'
        · simp [delta, h2] at hda
          exact ⟨h2, by omega⟩
        · simp [delta, h1, h2] at hda; omega
    obtain ⟨rfl, hdp1⟩ := hc
    have hb1 : st.brace = 1 := by rw [hb, hdp1]
    simp [scanStep, hin, hb1, hcur]
  | c :: d :: r', p, st, hin, hb, hcur, hp, _, hdelta, hpref => by
    have hdp : 0 < delta p := by
      have h0 := hpref p.length (by simp [List.length_append]) (by
        cases p with
        | nil => exact absurd rfl hp
        | cons x xs => simp)
      rwa [List.take_left] at h0
    have hsplit : p ++ c :: d :: r' = (p ++ [c]) ++ (d :: r') := by
      simp
    have hdp' : 0 < delta (p ++ [c]) := by
      have h0 := hpref (p.length + 1) (by simp [List.length_append]) (by omega)
      rwa [hsplit, ← show (p ++ [c]).length = p.length + 1 by simp,
        List.take_left] at h0
    have hdelta' : delta ((p ++ [c]) ++ (d :: r')) = 0 := by
      rw [← hsplit]; exact hdelta
    have hpref' : ∀ n, n < ((p ++ [c]) ++ (d :: r')).length → 0 < n →
        0 < delta (((p ++ [c]) ++ (d :: r')).take n) := by
      rw [← hsplit]; exact hpref
    have hstep : scanStep st c =
        ⟨true, delta (p ++ [c]), p ++ [c], st.objs⟩ := by
      obtain ⟨ia, br, cu, ob⟩ := st
      simp only at hin hb hcur ⊢
      symm at hcur
      subst hin hb hcur
      by_cases h1 : c = '{'
      · subst h1
        have hdone : delta (p ++ ['{']) = delta p + 1 := by
          rw [delta_append]; simp [delta]
        have hgt : 0 < delta p + 1 := by omega
        simp [scanStep, hgt, hdone]
      · by_cases h2 : c = '}'
        · subst h2
          have hdone : delta (p ++ ['}']) = delta p - 1 := by
            rw [delta_append]; simp [delta]; omega
          have hne : ¬ (delta p - 1 = 0) := by
            rw [← hdone]; omega
          simp [scanStep, h1, hdp, hne, hdone]
        · have hdone : delta (p ++ [c]) = delta p := by
            rw [delta_append]; simp [delta, h1, h2]
          simp [scanStep, h1, h2, hdp, hdone]
    rw [List.foldl_cons, hstep,
      scan_balanced_aux (d :: r') (p ++ [c])
        ⟨true, delta (p ++ [c]), p ++ [c], st.objs⟩
        rfl rfl rfl (by simp) (by simp) hdelta' hpref', hsplit]

theorem scan_balanced (t : List Char) (st : ScanState) (hin : st.in_array = true)
    (hb : st.brace = 0) (hcur : st.current = []) (hw : wellNested t) :
    t.foldl scanStep st = ⟨true, 0, [], st.objs ++ [t]⟩ := by
  obtain ⟨hhead, hdelta, hpref⟩ := hw
  obtain ⟨r, rfl⟩ : ∃ r, t = '{' :: r := by
    cases t with
    | nil => cases hhead
    | cons c cs =>
      simp only [List.head?] at hhead
      exact ⟨cs, by rw [Option.some.injEq] at hhead; rw [hhead]⟩
  have hstep : scanStep st '{' = ⟨true, 1, ['{'], st.objs⟩ := by
    obtain ⟨ia, br, cu, ob⟩ := st
    simp only at hin hb hcur
    subst hin hb hcur
    simp [scanStep]
  cases r with
  | nil => simp [delta] at hdelta
  | cons d r' =>
    rw [List.foldl_cons, hstep,
      scan_balanced_aux (d :: r') ['{'] ⟨true, 1, ['{'], st.objs⟩
        rfl (by simp [delta]) rfl (by simp) (by simp)
        (by simpa using hdelta) (by simpa using hpref)]
    simp

theorem scan_parts :
    ∀ (parts : List (List Char × List Char)) (st : ScanState),
      st.in_array = true → st.brace = 0 → st.current = [] →
      (∀ pr ∈ parts, sepOk pr.1) → (∀ pr ∈ parts, wellNested pr.2) →
      ((parts.map (fun pr => pr.1 ++ pr.2)).flatten).foldl scanStep st =
        ⟨true, 0, [], st.objs ++ parts.map Prod.snd⟩
  | [], st, hin, hb, hcur, _, _ => by
    obtain ⟨ia, br, cu, ob⟩ := st
    simp only at hin hb hcur
    subst hin hb hcur
    simp
  | (s, t) :: parts, st, hin, hb, hcur, hsep, hobj => by
    have hs : sepOk s := hsep (s, t) (List.mem_cons_self _ _)
    have ht : wellNested t := hobj (s, t) (List.mem_cons_self _ _)
    simp only [List.map_cons, List.flatten_cons, List.append_assoc]
    rw [List.foldl_append, List.foldl_append,
      foldl_sep st hin hb s hs,
      scan_balanced t st hin hb hcur ht,
      scan_parts parts ⟨true, 0, [], st.objs ++ [t]⟩ rfl rfl rfl
        (fun pr hpr => hsep pr (List.mem_cons_of_mem _ hpr))
        (fun pr hpr => hobj pr (List.mem_cons_of_mem _ hpr))]
    simp

/-! ### Further helper lemmas for the retry and record layers -/

theorem ttLoop_succ (retries : Nat) (b : ℚ) (t : String) (cache : Cache)
    (p : Nat → Attempt) (s : String) (hs : s.data.isEmpty = false) :
    ∀ (k remaining attempt : Nat) (sleeps : List ℚ) (calls : Nat),
      (∀ i, attempt ≤ i → i < attempt + k → p i = .exn) →
      p (attempt + k) = .val (some s) →
      k < remaining → attempt + remaining = retries →
      ttLoop p retries b t cache remaining attempt sleeps calls =
        ⟨some s, Cache.insert cache t s,
          sleeps ++ (List.range' attempt k).map (fun i => b * 2 ^ i),
          calls + k + 1⟩
  | 0, remaining, attempt, sleeps, calls, _, hsucc, hk, _ => by
    obtain ⟨m, rfl⟩ : ∃ m, remaining = m + 1 := ⟨remaining - 1, by omega⟩
    rw [ttLoop_step_val_some p retries b t cache m attempt sleeps calls s
      (by simpa using hsucc) hs]
    simp
  | (k + 1), remaining, attempt, sleeps, calls, hfail, hsucc, hk, hr => by
    obtain ⟨m, rfl⟩ : ∃ m, remaining = m + 1 := ⟨remaining - 1, by omega⟩
    have hlt : attempt < retries - 1 := by omega
    have hp : p attempt = .exn := hfail attempt le_rfl (by omega)
    rw [ttLoop_step_exn_sleep p retries b t cache m attempt sleeps calls hp hlt,
      ttLoop_succ retries b t cache p s hs k m (attempt + 1)
        (sleeps ++ [b * 2 ^ attempt]) (calls + 1)
        (fun i h1 h2 => hfail i (by omega) (by omega))
        (by rw [show attempt + 1 + k = attempt + (k + 1) by omega]; exact hsucc)
        (by omega) (by omega)]
    congr 1
    · simp [List.range'_succ]
    · omega

theorem find_val_mem : ∀ (c : Cache) (t v : String),
    Cache.find c t = some v → ∃ k, (k, v) ∈ c
  | [], t, v, h => by cases h
  | (k, w) :: c, t, v, h => by
    unfold Cache.find at h
    by_cases hk : k = t
    · rw [if_pos hk, Option.some.injEq] at h
      subst h
      exact ⟨k, List.mem_cons_self _ _⟩
    · rw [if_neg hk] at h
      obtain ⟨k', hk'⟩ := find_val_mem c t v h
      exact ⟨k', List.mem_cons_of_mem _ hk'⟩

theorem translateRec_fields (cf : Bool) (p : String → Nat → Attempt) (c : Cache)
    (r r' : Rec) (c' : Cache) (h : translateRec cf p c r = .ok (r', c')) :
    r'.mesh_id = r.mesh_id ∧ r'.term_en = r.term_en ∧
      r'.definition = r.definition := by
  unfold translateRec at h
  cases h₁ : applyField cf p c r.term_en with
  | error e =>
    simp only [h₁] at h
    exact Except.noConfusion h
  | ok x =>
    obtain ⟨tv, c₁⟩ := x
    simp only [h₁] at h
    cases h₂ : applyField cf p c₁ r.definition with
    | error e =>
      simp only [h₂] at h
      exact Except.noConfusion h
    | ok y =>
      obtain ⟨dv, c₂⟩ := y
      simp only [h₂] at h
      simp only [Except.ok.injEq, Prod.mk.injEq] at h
      obtain ⟨hr, _⟩ := h
      subst hr
      cases tv <;> cases dv <;> simp

theorem translateRec_vi (cf : Bool) (p : String → Nat → Attempt) (c : Cache)
    (r r' : Rec) (c' : Cache) (h : translateRec cf p c r = .ok (r', c'))
    (h1 : r.term_vi = none) (h2 : r.definition_vi = none) :
    (r'.term_vi = none ∨ ∃ s, r'.term_vi = some s ∧ s ≠ "") ∧
    (r'.definition_vi = none ∨ ∃ s, r'.definition_vi = some s ∧ s ≠ "") := by
  unfold translateRec at h
  cases h₁ : applyField cf p c r.term_en with
  | error e =>
    simp only [h₁] at h
    exact Except.noConfusion h
  | ok x =>
    obtain ⟨tv, c₁⟩ := x
    simp only [h₁] at h
    cases h₂ : applyField cf p c₁ r.definition with
    | error e =>
      simp only [h₂] at h
      exact Except.noConfusion h
    | ok y =>
      obtain ⟨dv, c₂⟩ := y
      simp only [h₂] at h
      simp only [Except.ok.injEq, Prod.mk.injEq] at h
      obtain ⟨hr, _⟩ := h
      subst hr
      have htv := applyField_nonempty cf p c r.term_en tv c₁ h₁
      have hdv := applyField_nonempty cf p c₁ r.definition dv c₂ h₂
      cases tv <;> cases dv <;> constructor <;> simp_all

theorem processRecords_vi (cf : Bool) (p : String → Nat → Attempt)
    (resume : Bool) (existing : List String) :
    ∀ (rs : List Rec) (st st' : PState),
      (∀ q ∈ st.written,
        (q.term_vi = none ∨ ∃ s, q.term_vi = some s ∧ s ≠ "") ∧
        (q.definition_vi = none ∨ ∃ s, q.definition_vi = some s ∧ s ≠ "")) →
      (∀ q ∈ rs, q.term_vi = none ∧ q.definition_vi = none) →
      processRecords cf p resume existing rs st = .ok st' →
      ∀ q ∈ st'.written,
        (q.term_vi = none ∨ ∃ s, q.term_vi = some s ∧ s ≠ "") ∧
        (q.definition_vi = none ∨ ∃ s, q.definition_vi = some s ∧ s ≠ "")
  | [], st, st', hw, _, h => by
    unfold processRecords at h
    rw [Except.ok.injEq] at h
    subst h
    exact hw
  | r :: rs, st, st', hw, hrs, h => by
    unfold processRecords at h
    cases hpo : processOne cf p resume existing st r with
    | error e =>
      simp only [hpo] at h
      exact Except.noConfusion h
    | ok st₁ =>
      simp only [hpo] at h
      refine processRecords_vi cf p resume existing rs st₁ st' ?_
        (fun q hq => hrs q (List.mem_cons_of_mem _ hq)) h
      intro q hq
      unfold processOne at hpo
      by_cases hskip : skipRec resume existing r = true
      · rw [if_pos hskip, Except.ok.injEq] at hpo
        subst hpo
        exact hw q hq
      · rw [if_neg hskip] at hpo
        cases htr : translateRec cf p st.cache r with
        | error e =>
          simp only [htr] at hpo
          exact Except.noConfusion hpo
        | ok x =>
          obtain ⟨r', c'⟩ := x
          simp only [htr, Except.ok.injEq] at hpo
          subst hpo
          rcases List.mem_append.mp hq with hq' | hq'
          · exact hw q hq'
          · obtain rfl : q = r' := by simpa using hq'
            exact translateRec_vi cf p st.cache r q c' htr
              (hrs r (List.mem_cons_self _ _)).1
              (hrs r (List.mem_cons_self _ _)).2

theorem applyField_allFail (f : Option String) :
    applyField false (fun _ _ => .exn) [] f = .ok (none, []) := by
  cases f with
  | none => rfl
  | some t =>
    unfold applyField
    by_cases he : t.data.isEmpty = true
    · simp [he]
    · have he' : t.data.isEmpty = false := by simpa using he
      simp only [he', Bool.false_eq_true, if_false]
      by_cases hb : pyBlank t = true
      · simp [translate_text, hb, truthy]
      · have hb' : pyBlank t = false := by simpa using hb
        have hloop := ttLoop_allFail 5 1 t [] 5 0 [] 0 (by omega)
        simp [translate_text, hb', Cache.find, hloop, truthy]

/-! ### Claim theorems -/

/-- C1 (counterexample): the claim fails as stated.  On the valid JSON
array text `[{"a":"}"}]` — one object whose string value is a closing
brace — the reader completes an object at the brace inside the string
literal: it yields the truncated text and not the object's text. -/
theorem scanChars_string_brace_counterexample :
    scanChars ['[', '{', '"', 'a', '"', ':', '"', '}', '"', '}', ']'] =
      [['{', '"', 'a', '"', ':', '"', '}']] ∧
    scanChars ['[', '{', '"', 'a', '"', ':', '"', '}', '"', '}', ']'] ≠
      [['{', '"', 'a', '"', ':', '"', '}', '"', '}']] := by
  constructor
  · rfl
  · decide

/-- C1 (amended): for every input consisting of anything without an
opening bracket, then the bracket opening the top-level array, then
object texts — each well nested for the brace counter, i.e. with no
brace character inside a string literal — separated and followed by
brace-free filler, the streaming reader yields exactly the object
texts, in array order, each exactly once (each is then decoded by the
JSON library); the boundaries are found by brace counting alone, so an
object containing a brace inside a string is split early, as the
counterexample shows. -/
theorem scanChars_array (pre : List Char) (parts : List (List Char × List Char))
    (post : List Char) (hpre : ∀ c ∈ pre, c ≠ '[')
    (hsep : ∀ pr ∈ parts, sepOk pr.1) (hobj : ∀ pr ∈ parts, wellNested pr.2)
    (hpost : sepOk post) :
    scanChars
        (pre ++ '[' :: ((parts.map (fun pr => pr.1 ++ pr.2)).flatten ++ post)) =
      parts.map Prod.snd := by
  unfold scanChars
  rw [List.foldl_append, foldl_pre initScan rfl pre hpre, List.foldl_cons]
  have hopen : scanStep initScan '[' = ⟨true, 0, [], []⟩ := by
    simp [scanStep, initScan]
  rw [hopen, List.foldl_append,
    scan_parts parts ⟨true, 0, [], []⟩ rfl rfl rfl hsep hobj,
    foldl_sep ⟨true, 0, [], [] ++ parts.map Prod.snd⟩ rfl rfl post hpost]
  simp

/-- Witness for C1 at the concrete two-object array text
`[{"a":1},{"b":2}]`. -/
theorem scanChars_array_witness :
    scanChars (([] : List Char) ++ '[' ::
        (([(([] : List Char), ['{', '"', 'a', '"', ':', '1', '}']),
           ([','], ['{', '"', 'b', '"', ':', '2', '}'])].map
            (fun pr => pr.1 ++ pr.2)).flatten ++ [']'])) =
      [(([] : List Char), ['{', '"', 'a', '"', ':', '1', '}']),
       ([','], ['{', '"', 'b', '"', ':', '2', '}'])].map Prod.snd :=
  scanChars_array [] _ [']'] (by decide) (by decide) (by decide) (by decide)

/-- C2: with resume mode on and a pre-existing output file whose lines
carry the identifiers A and B, running the loop on an input stream of
records identified A, B, C translates and writes only the record C: A
and B are skipped before any translation, the output gains exactly the
one line for C (so no duplicate lines for A or B), and the one written
record is the translation of C from the starting cache. -/
theorem process_resume_skips (p : String → Nat → Attempt)
    (lines : List (Option Rec)) (A B C : String) (rA rB rC : Rec)
    (cache : Cache)
    (hA : rA.mesh_id = some A) (hB : rB.mesh_id = some B)
    (hC : rC.mesh_id = some C)
    (hAne : A ≠ "") (hBne : B ≠ "")
    (hAmem : A ∈ collectIds lines) (hBmem : B ∈ collectIds lines)
    (hCnot : C ∉ collectIds lines) :
    ∃ rC' c', translateRec false p cache rC = .ok (rC', c') ∧
      rC'.mesh_id = some C ∧
      processRecords false p true (collectIds lines) [rA, rB, rC]
          ⟨cache, [], 0⟩ = .ok ⟨c', [rC'], 1⟩ := by
  obtain ⟨⟨rC', c'⟩, htr⟩ := translateRec_ok p cache rC
  have hid : rC'.mesh_id = some C := by
    rw [(translateRec_fields false p cache rC rC' c' htr).1, hC]
  have h1 : processOne false p true (collectIds lines) ⟨cache, [], 0⟩ rA =
      .ok ⟨cache, [], 0⟩ :=
    processOne_skip _ _ _ _ _ _ (skipRec_hit _ rA A hA hAne hAmem)
  have h2 : processOne false p true (collectIds lines) ⟨cache, [], 0⟩ rB =
      .ok ⟨cache, [], 0⟩ :=
    processOne_skip _ _ _ _ _ _ (skipRec_hit _ rB B hB hBne hBmem)
  have h3 : processOne false p true (collectIds lines) ⟨cache, [], 0⟩ rC =
      .ok ⟨c', [] ++ [rC'], 0 + 1⟩ :=
    processOne_write _ _ _ _ _ _ _ _ (skipRec_miss true _ rC C hC hCnot) htr
  refine ⟨rC', c', htr, hid, ?_⟩
  simp only [processRecords, h1, h2, h3]
  simp [processRecords]

/-- Witness for C2 at concrete records and an existing output of two
lines. -/
theorem process_resume_skips_witness :
    ∃ rC' c',
      translateRec false (fun _ _ => .exn) []
        ⟨some "C3", some "Fever", none, none, none⟩ = .ok (rC', c') ∧
      rC'.mesh_id = some "C3" ∧
      processRecords false (fun _ _ => .exn) true
          (collectIds
            [some ⟨some "A1", none, none, none, none⟩,
             some ⟨some "B2", none, none, none, none⟩])
          [⟨some "A1", none, none, none, none⟩,
           ⟨some "B2", none, none, none, none⟩,
           ⟨some "C3", some "Fever", none, none, none⟩]
          ⟨[], [], 0⟩ = .ok ⟨c', [rC'], 1⟩ :=
  process_resume_skips (fun _ _ => .exn)
    [some ⟨some "A1", none, none, none, none⟩,
     some ⟨some "B2", none, none, none, none⟩]
    "A1" "B2" "C3"
    ⟨some "A1", none, none, none, none⟩
    ⟨some "B2", none, none, none, none⟩
    ⟨some "C3", some "Fever", none, none, none⟩ []
    rfl rfl rfl (by decide) (by decide) (by decide) (by decide) (by decide)

/-- C3 (counterexample): the claim fails as stated.  With a record
stream already being iterated, an exception raised while constructing
the translation client (`GoogleTranslator(...)`, which stands outside
the `try` of `translate_text`) propagates out of the loop and
terminates the batch. -/
theorem process_ctor_exn_counterexample :
    processRecords true (fun _ _ => .exn) false []
        [⟨some "M1", some "Hypertension", none, none, none⟩]
        ⟨[], [], 0⟩ = .error () := rfl

/-- C3 (amended): once `process` iterates records, and provided
constructing the translation client does not raise, no exception of the
per-record or per-field processing terminates the batch: whatever the
provider does on each attempt (exceptions included — they are caught by
the retry loop), the loop runs every record to completion; an exception
from the client constructor, however, is not caught and terminates the
batch, as the counterexample shows. -/
theorem process_no_uncaught (p : String → Nat → Attempt) (resume : Bool)
    (existing : List String) (rs : List Rec) (st : PState) :
    ∃ st', processRecords false p resume existing rs st = .ok st' :=
  processRecords_no_error p resume existing rs st

/-- C4 (counterexample): the claim fails as stated.  The text `" "` is
non-empty and present in the cache, yet `translate_text` returns `None`
rather than the cached value, because the whitespace short-circuit runs
before the cache lookup. -/
theorem translate_text_whitespace_key_counterexample :
    Cache.find [(" ", "giu")] " " = some "giu" ∧
    translate_text false (fun _ => .exn) " " [(" ", "giu")] 5 1 =
      .ok ⟨none, [(" ", "giu")], [], 0⟩ ∧
    (none : Option String) ≠ some "giu" := by
  refine ⟨rfl, rfl, by simp⟩

/-- C4 (amended): for every non-blank (not merely non-empty) text whose
key is present in the cache, `translate_text` returns the cached value
with zero provider invocations, no sleep and the cache unchanged; and
after any first `translate_text` call that returned a translation, a
second call with the same text against the resulting cache returns that
value from the cache with zero provider invocations. -/
theorem translate_text_cache_hit :
    (∀ (cf : Bool) (p : Nat → Attempt) (t : String) (c : Cache) (v : String)
        (r : Nat) (b : ℚ), pyBlank t = false → Cache.find c t = some v →
        translate_text cf p t c r b = .ok ⟨some v, c, [], 0⟩) ∧
    (∀ (cf cf' : Bool) (p p' : Nat → Attempt) (t : String) (c : Cache)
        (r r' : Nat) (b b' : ℚ) (res : TransResult) (v : String),
        translate_text cf p t c r b = .ok res → res.result = some v →
        translate_text cf' p' t res.cache r' b' =
          .ok ⟨some v, res.cache, [], 0⟩) := by
  constructor
  · intro cf p t c v r b hblank hfind
    exact tt_hit cf p t c v r b hblank hfind
  · intro cf cf' p p' t c r r' b b' res v h hres
    unfold translate_text at h
    by_cases hb : pyBlank t = true
    · rw [if_pos hb, Except.ok.injEq] at h
      subst h
      simp at hres
    · have hb' : pyBlank t = false := by simpa using hb
      rw [if_neg hb] at h
      cases hf : Cache.find c t with
      | some w =>
        simp only [hf, Except.ok.injEq] at h
        subst h
        simp only at hres
        rw [Option.some.injEq] at hres
        subst hres
        exact tt_hit cf' p' t c w r' b' hb' hf
      | none =>
        simp only [hf] at h
        cases cf with
        | true =>
          simp only [if_true] at h
          exact Except.noConfusion h
        | false =>
          simp only [Bool.false_eq_true, if_false, Except.ok.injEq] at h
          subst h
          have hfind := ttLoop_find p r b t r c 0 [] 0 v hres
          exact tt_hit cf' p' t _ v r' b' hb' hfind

/-- Witness for C4: a cache hit answered from the cache, and a second
call after a successful first call answered from the cache, both with
zero provider invocations. -/
theorem translate_text_cache_hit_witness :
    translate_text false (fun _ => .exn) "heart" [("heart", "tim")] 5 1 =
      .ok ⟨some "tim", [("heart", "tim")], [], 0⟩ ∧
    translate_text true (fun _ => .exn) "heart" [("heart", "tim")] 7 2 =
      .ok ⟨some "tim", [("heart", "tim")], [], 0⟩ :=
  ⟨translate_text_cache_hit.1 false (fun _ => .exn) "heart" [("heart", "tim")]
      "tim" 5 1 (by decide) rfl,
   translate_text_cache_hit.2 false true (fun _ => .exn) (fun _ => .exn)
      "heart" [("heart", "tim")] 5 7 1 2 ⟨some "tim", [("heart", "tim")], [], 0⟩
      "tim" (translate_text_cache_hit.1 false (fun _ => .exn) "heart"
        [("heart", "tim")] "tim" 5 1 (by decide) rfl) rfl⟩

/-- C5: with a provider that raises on attempts 0..N-1 and returns a
non-empty translation on attempt N, and a retry ceiling of N+1,
`translate_text` returns that translation (caching it), invokes the
provider exactly N+1 times, and performs exactly N backoff sleeps of
durations base*2^0, ..., base*2^(N-1) — strictly increasing, the base
delay doubling each attempt (the code's base delay is positive). -/
theorem translate_text_retry_backoff (N : Nat) (s t : String) (c : Cache)
    (b : ℚ) (p : Nat → Attempt)
    (hfail : ∀ i, i < N → p i = .exn) (hsucc : p N = .val (some s))
    (hs : s ≠ "") (ht : pyBlank t = false) (hc : Cache.find c t = none)
    (hb : 0 < b) :
    translate_text false p t c (N + 1) b =
      .ok ⟨some s, Cache.insert c t s,
        (List.range N).map (fun i => b * 2 ^ i), N + 1⟩ ∧
    ((List.range N).map (fun i => b * 2 ^ i)).Pairwise (· < ·) := by
  constructor
  · unfold translate_text
    simp only [ht, Bool.false_eq_true, if_false, hc]
    rw [ttLoop_succ (N + 1) b t c p s ((string_ne_empty_iff s).mp hs)
      N (N + 1) 0 [] 0 (fun i h1 h2 => hfail i (by omega))
      (by simpa using hsucc) (by omega) (by omega)]
    simp [List.range_eq_range']
  · refine List.Pairwise.map _ (fun a a' haa => ?_) (List.pairwise_lt_range N)
    exact mul_lt_mul_of_pos_left (pow_lt_pow_right₀ one_lt_two haa) hb

/-- Witness for C5 with N = 2 failures then success, base delay 1. -/
theorem translate_text_retry_backoff_witness :
    translate_text false (fun i => if i < 2 then .exn else .val (some "xc"))
        "hello" [] 3 1 =
      .ok ⟨some "xc", Cache.insert [] "hello" "xc",
        (List.range 2).map (fun i => (1 : ℚ) * 2 ^ i), 3⟩ ∧
    ((List.range 2).map (fun i => (1 : ℚ) * 2 ^ i)).Pairwise (· < ·) :=
  translate_text_retry_backoff 2 "xc" "hello" [] 1
    (fun i => if i < 2 then .exn else .val (some "xc"))
    (fun i hi => by simp [hi]) (by norm_num) (by decide) (by decide) rfl
    (by norm_num)

/-- C6: with a provider that always raises and a retry ceiling of K,
`translate_text` returns no translation after exactly K provider
attempts, leaving the cache unchanged; and the loop of `process` still
writes the record — unchanged, so the `*_vi` keys stay exactly as they
were in the input record (absent for a plain input record). -/
theorem translate_text_exhaust :
    (∀ (K : Nat) (t : String) (c : Cache) (b : ℚ),
        pyBlank t = false → Cache.find c t = none →
        translate_text false (fun _ => .exn) t c K b =
          .ok ⟨none, c, (List.range (K - 1)).map (fun i => b * 2 ^ i), K⟩) ∧
    (∀ (r : Rec) (existing : List String) (w : List Rec) (n : Nat),
        processOne false (fun _ _ => .exn) false existing ⟨[], w, n⟩ r =
          .ok ⟨[], w ++ [r], n + 1⟩) := by
  constructor
  · intro K t c b ht hc
    unfold translate_text
    simp only [ht, Bool.false_eq_true, if_false, hc]
    rw [ttLoop_allFail K b t c K 0 [] 0 (by omega)]
    simp [List.range_eq_range']
  · intro r existing w n
    have hskip : skipRec false existing r = false := by simp [skipRec]
    have htr : translateRec false (fun _ _ => .exn) [] r = .ok (r, []) := by
      unfold translateRec
      simp only [applyField_allFail]
    exact processOne_write false (fun _ _ => .exn) false existing
      ⟨[], w, n⟩ r r [] hskip htr

/-- Witness for C6 with retry ceiling 3 and a one-record stream. -/
theorem translate_text_exhaust_witness :
    translate_text false (fun _ => .exn) "abc" [] 3 1 =
      .ok ⟨none, [], (List.range (3 - 1)).map (fun i => (1 : ℚ) * 2 ^ i), 3⟩ ∧
    processOne false (fun _ _ => .exn) false [] ⟨[], [], 0⟩
        ⟨some "M1", some "T", none, none, none⟩ =
      .ok ⟨[], [] ++ [⟨some "M1", some "T", none, none, none⟩], 0 + 1⟩ :=
  ⟨translate_text_exhaust.1 3 "abc" [] 1 (by decide) rfl,
   translate_text_exhaust.2 ⟨some "M1", some "T", none, none, none⟩ [] [] 0⟩

/-- C9 (counterexample): the claim fails as stated.  When the loaded
cache maps a text to the empty string (possible, since the cache file is
read back as arbitrary JSON), `translate_text` returns that empty
string: its return value is neither `None` nor a non-empty string. -/
theorem translate_text_empty_cache_value_counterexample :
    translate_text false (fun _ => .exn) "heart" [("heart", "")] 5 1 =
      .ok ⟨some "", [("heart", "")], [], 0⟩ ∧
    ¬((some "" : Option String) = none ∨
        ∃ s, (some "" : Option String) = some s ∧ s ≠ "") := by
  refine ⟨rfl, ?_⟩
  rintro (h | ⟨s, hs, hne⟩)
  · exact Option.noConfusion h
  · rw [Option.some.injEq] at hs
    exact hne hs.symm

/-- C9 (amended): `translate_text` returns the empty string only when
the cache already binds the text to the empty string: whenever every
cache value is non-empty (as is the case for every entry
`translate_text` itself writes, guarded by `if translated:`), it
returns `None` or a non-empty string.  And unconditionally, every
record the loop writes from inputs without `*_vi` keys has its
`term_vi` and `definition_vi` keys absent or bound to a non-empty
string, because `process` guards each assignment with a truthiness
check that discards the empty string. -/
theorem translate_text_nonempty :
    (∀ (cf : Bool) (p : Nat → Attempt) (t : String) (c : Cache) (r : Nat)
        (b : ℚ) (res : TransResult),
        (∀ kv ∈ c, kv.2 ≠ "") →
        translate_text cf p t c r b = .ok res →
        res.result = none ∨ ∃ s, res.result = some s ∧ s ≠ "") ∧
    (∀ (cf : Bool) (p : String → Nat → Attempt) (resume : Bool)
        (existing : List String) (rs : List Rec) (st st' : PState),
        (∀ q ∈ st.written,
          (q.term_vi = none ∨ ∃ s, q.term_vi = some s ∧ s ≠ "") ∧
          (q.definition_vi = none ∨ ∃ s, q.definition_vi = some s ∧ s ≠ "")) →
        (∀ q ∈ rs, q.term_vi = none ∧ q.definition_vi = none) →
        processRecords cf p resume existing rs st = .ok st' →
        ∀ q ∈ st'.written,
          (q.term_vi = none ∨ ∃ s, q.term_vi = some s ∧ s ≠ "") ∧
          (q.definition_vi = none ∨ ∃ s, q.definition_vi = some s ∧ s ≠ "")) := by
  constructor
  · intro cf p t c r b res hvals h
    unfold translate_text at h
    by_cases hb : pyBlank t = true
    · rw [if_pos hb, Except.ok.injEq] at h
      subst h
      exact Or.inl rfl
    · rw [if_neg hb] at h
      cases hf : Cache.find c t with
      | some w =>
        simp only [hf, Except.ok.injEq] at h
        subst h
        obtain ⟨k, hk⟩ := find_val_mem c t w hf
        exact Or.inr ⟨w, rfl, hvals (k, w) hk⟩
      | none =>
        simp only [hf] at h
        cases cf with
        | true =>
          simp only [if_true] at h
          exact Except.noConfusion h
        | false =>
          simp only [Bool.false_eq_true, if_false, Except.ok.injEq] at h
          subst h
          exact ttLoop_nonempty p r b t r c 0 [] 0
  · intro cf p resume existing rs st st' hw hrs h
    exact processRecords_vi cf p resume existing rs st st' hw hrs h

/-- Witness for C9: a non-empty-valued cache forces a non-empty result,
and a processed batch leaves only absent-or-non-empty `*_vi` keys. -/
theorem translate_text_nonempty_witness :
    ((⟨some "tim", [("heart", "tim")], [], 0⟩ : TransResult).result = none ∨
      ∃ s, (⟨some "tim", [("heart", "tim")], [], 0⟩ : TransResult).result
        = some s ∧ s ≠ "") ∧
    ((⟨some "M1", some "T", none, none, none⟩ : Rec).term_vi = none ∨
      ∃ s, (⟨some "M1", some "T", none, none, none⟩ : Rec).term_vi = some s ∧
        s ≠ "") := by
  constructor
  · exact translate_text_nonempty.1 false (fun _ => .exn) "heart"
      [("heart", "tim")] 5 1 ⟨some "tim", [("heart", "tim")], [], 0⟩
      (by decide) rfl
  · have h := translate_text_nonempty.2 false (fun _ _ => .exn) false []
      [⟨some "M1", some "T", none, none, none⟩] ⟨[], [], 0⟩
      ⟨[], [⟨some "M1", some "T", none, none, none⟩], 1⟩
      (by simp) (by simp) rfl
    exact (h ⟨some "M1", some "T", none, none, none⟩ (by simp)).1

/-- C10: a record whose `mesh_id` is missing, null or falsy is never
skipped by the resume check — whatever the existing-identifier set
holds (even when an identical record already stands in the output
file), the record is translated and written again. -/
theorem process_falsy_id_not_skipped (p : String → Nat → Attempt)
    (existing : List String) (st : PState) (r : Rec)
    (hfalsy : r.mesh_id = none ∨ r.mesh_id = some "") :
    ∃ r' c', translateRec false p st.cache r = .ok (r', c') ∧
      processOne false p true existing st r =
        .ok ⟨c', st.written ++ [r'], st.writtenCount + 1⟩ := by
  obtain ⟨⟨r', c'⟩, htr⟩ := translateRec_ok p st.cache r
  exact ⟨r', c', htr, processOne_write false p true existing st r r' c'
    (skipRec_falsy true existing r hfalsy) htr⟩

/-- Witness for C10: a record without a `mesh_id` is written even though
the output file already holds an identical line. -/
theorem process_falsy_id_not_skipped_witness :
    ∃ r' c', translateRec false (fun _ _ => .exn)
        (⟨[], [⟨none, some "T", none, none, none⟩], 1⟩ : PState).cache
        ⟨none, some "T", none, none, none⟩ = .ok (r', c') ∧
      processOne false (fun _ _ => .exn) true ["T1"]
          ⟨[], [⟨none, some "T", none, none, none⟩], 1⟩
          ⟨none, some "T", none, none, none⟩ =
        .ok ⟨c', [⟨none, some "T", none, none, none⟩] ++ [r'], 1 + 1⟩ :=
  process_falsy_id_not_skipped (fun _ _ => .exn) ["T1"]
    ⟨[], [⟨none, some "T", none, none, none⟩], 1⟩
    ⟨none, some "T", none, none, none⟩ (Or.inl rfl)
